/-
  Verification of the Vegas casino demo (game round lifecycle and score
  aggregation engine).

  Shallow embedding of:
  * the blackjack service (`services/blackjack/index.js`): `scoreHand`,
    the in-memory `games` session store, and the `/hit`, `/stand`,
    `/double` handlers (identical logic in the gRPC implementation);
  * the scoring service (`ScoringService.java`, `ScoringController.java`,
    `GameResultRepository.java`, `PlayerScoreRepository.java`):
    `recordGameResult`, the dashboard statistics and the leaderboards;
  * the dice service (`dice/main.go`): the `rollHandler` outcome.

  Conventions: JavaScript / Java / Go numbers that carry money amounts are
  modelled as `ℚ`; counters and card ranks as `ℕ`; SQL `timestamp` columns
  as `ℕ` ticks; nullable values as `Option`; fallible handlers return an
  `Except` paired with the resulting store (an early-return error leaves the
  store untouched, exactly as in the handlers).
-/
import Mathlib

namespace Vegas

/-! ## Blackjack: cards and hand scoring (`services/blackjack/index.js`) -/

/-- A playing card as produced by `drawCard()`: `rank` is 1..13
(1 = ace, 11..13 = face cards); the suit does not influence scoring. -/
structure Card where
  rank : Nat
  suit : String := ""
  deriving Repr, DecidableEq

/-- Value a single card contributes in the accumulation loop of
`scoreHand`: an ace (`rank = 1`) first counts 11, a face card
(`rank > 10`) counts 10, anything else its rank. -/
def cardBase (c : Card) : Nat :=
  if c.rank = 1 then 11 else if c.rank > 10 then 10 else c.rank

/-- Number of aces in a hand — the `aces` counter of `scoreHand`. -/
def aceCount (hand : List Card) : Nat :=
  (hand.filter (fun c => c.rank = 1)).length

/-- The `while (score > 21 && aces > 0) { score -= 10; aces--; }` loop of
`scoreHand`, recursing on the ace counter. -/
def reduceAces : Nat → Nat → Nat
  | score, 0 => score
  | score, aces + 1 => if 21 < score then reduceAces (score - 10) aces else score

/-- Embedding of `scoreHand(hand)` from `services/blackjack/index.js`: sum card values
with every ace at 11, then drop 10 per ace while the total exceeds 21. -/
def scoreHand (hand : List Card) : Nat :=
  reduceAces ((hand.map cardBase).sum) (aceCount hand)

/-- The fully "hard" valuation of a hand: every ace counts 1 (this is the
value `scoreHand` reaches once no ace can still count as 11). -/
def hardScore (hand : List Card) : Nat :=
  (hand.map (fun c =>
    if c.rank = 1 then 1 else if c.rank > 10 then 10 else c.rank)).sum

/-! ## Blackjack: session store and handlers -/

/-- One entry of the module-level `games` map: the mutable per-player
session (`{ playerHand, dealerHand, betAmount }`). -/
structure BJGame where
  playerHand : List Card
  dealerHand : List Card
  betAmount : ℚ
  deriving Repr, DecidableEq

/-- The module-level `games : Map` of the blackjack service, keyed by
username, as an association list in insertion order. -/
abbrev GameStore := List (String × BJGame)

/-- Lookup `games.get(username)`. -/
def gamesGet (s : GameStore) (u : String) : Option BJGame :=
  (s.find? (fun p => p.1 = u)).map Prod.snd

/-- Update `games.set(username, g)`: replace the entry in place when present,
append otherwise (JS `Map` keeps insertion order). -/
def gamesSet : GameStore → String → BJGame → GameStore
  | [], u, g => [(u, g)]
  | (v, h) :: rest, u, g =>
      if v = u then (u, g) :: rest else (v, h) :: gamesSet rest u g

/-- Removal `games.delete(username)`. -/
def gamesDelete : GameStore → String → GameStore
  | [], _ => []
  | (v, h) :: rest, u => if v = u then rest else (v, h) :: gamesDelete rest u

/-- Response body of the `/hit` (and gRPC `Hit`) handler. -/
structure HitResp where
  newCard : Card
  playerScore : Nat
  dealerScore : Nat
  deriving Repr, DecidableEq

/-- The `/hit` handler (same logic as gRPC `Hit`). The card produced by
`drawCard()` is a parameter. On a missing session it returns
`400 / "No active hand"` and leaves the store untouched; otherwise it pushes
the card onto the player hand and stores the session back. The visible
dealer score is `scoreHand([g.dealerHand[0]])`. -/
def hitHandler (s : GameStore) (u : String) (card : Card) :
    Except (Nat × String) HitResp × GameStore :=
  match gamesGet s u with
  | none => (.error (400, "No active hand"), s)
  | some g =>
      (.ok { newCard := card,
             playerScore := scoreHand (g.playerHand ++ [card]),
             dealerScore := scoreHand (g.dealerHand.take 1) },
       gamesSet s u { g with playerHand := g.playerHand ++ [card] })

/-- The dealer loop of `/stand`:
`while (scoreHand(g.dealerHand) < 17) g.dealerHand.push(drawCard())`.
The stream of cards `drawCard()` would produce is a parameter; the loop
stops early if the stream runs out. -/
def dealerDraw : List Card → List Card → List Card
  | hand, [] => hand
  | hand, c :: rest =>
      if scoreHand hand < 17 then dealerDraw (hand ++ [c]) rest else hand

/-- Response body of the `/stand` (and gRPC `Stand`) handler. -/
structure StandResp where
  dealerFinalHand : List Card
  dealerScore : Nat
  result : String
  payout : ℚ
  deriving Repr, DecidableEq

/-- The result chain of `/stand`:
`let result = 'lose'; if (playerScore > 21) result = 'lose';
else if (dealerScore > 21 || playerScore > dealerScore) result = 'win';
else if (playerScore === dealerScore) result = 'push';`. -/
def bjResult (playerScore dealerScore : Nat) : String :=
  if playerScore > 21 then "lose"
  else if dealerScore > 21 ∨ playerScore > dealerScore then "win"
  else if playerScore = dealerScore then "push"
  else "lose"

/-- The payout chain of `/stand`: `let payout = 0;
if (result === 'win') payout = g.betAmount * 2;
else if (result === 'push') payout = g.betAmount;`. -/
def bjPayout (result : String) (betAmount : ℚ) : ℚ :=
  if result = "win" then betAmount * 2
  else if result = "push" then betAmount
  else 0

/-- The `/stand` handler (same logic as gRPC `Stand`): dealer draws to 17,
then the round is settled and the session deleted from the store. -/
def standHandler (s : GameStore) (u : String) (deck : List Card) :
    Except (Nat × String) StandResp × GameStore :=
  match gamesGet s u with
  | none => (.error (400, "No active hand"), s)
  | some g =>
      let dealerFinal := dealerDraw g.dealerHand deck
      let result := bjResult (scoreHand g.playerHand) (scoreHand dealerFinal)
      (.ok { dealerFinalHand := dealerFinal,
             dealerScore := scoreHand dealerFinal,
             result := result, payout := bjPayout result g.betAmount },
       gamesDelete s u)

/-- Response body of the `/double` (and gRPC `Double`) handler. -/
structure DoubleResp where
  newCard : Card
  playerScore : Nat
  dealerScore : Nat
  additionalBet : ℚ
  deriving Repr, DecidableEq

/-- The `/double` handler (same logic as gRPC `Double`): session check
first, then the `blackjack.double-down` feature flag, then one card is
drawn and the bet doubled. -/
def doubleHandler (s : GameStore) (u : String) (doubleDownEnabled : Bool)
    (card : Card) : Except (Nat × String) DoubleResp × GameStore :=
  match gamesGet s u with
  | none => (.error (400, "No active hand"), s)
  | some g =>
      if doubleDownEnabled then
        (.ok { newCard := card,
               playerScore := scoreHand (g.playerHand ++ [card]),
               dealerScore := scoreHand (g.dealerHand.take 1),
               additionalBet := g.betAmount },
         gamesSet s u { g with playerHand := g.playerHand ++ [card],
                               betAmount := g.betAmount * 2 })
      else
        (.error (403, "Double-down feature is disabled"), s)

/-! ## Scoring service: persisted rows
(`PlayerScore`, `GameResult` entities and their repositories) -/

/-- The JSON `scoreMetadata` blob `recordGameResult` attaches to a
`PlayerScore` row: `{"initial_bet":b,"winnings":p,"net_winnings":p-b,...}`
(the embedded timestamp is dropped; it duplicates the row timestamp). -/
structure ScoreMeta where
  initialBet : ℚ
  winnings : ℚ
  netWinnings : ℚ
  deriving Repr, DecidableEq

/-- A row of the `player_scores` table. `score` stores the player's best
single-round payout for the game; `id` is the auto-increment primary key. -/
structure PlayerScore where
  id : Nat
  username : String
  role : String
  game : String
  score : ℚ
  timestamp : Nat
  metadata : Option ScoreMeta := none
  deriving Repr, DecidableEq

/-- A row of the `game_results` table (immutable once created). -/
structure GameResult where
  username : String
  game : String
  action : String
  betAmount : ℚ
  payout : ℚ
  win : Bool
  timestamp : Nat
  deriving Repr, DecidableEq

/-- The `player_scores` row for a `(username, game)` key.
`recordGameResult` maintains at most one row per key (it reads
`findByUsernameAndGameOrderByTimestampDesc(...).get(0)` and updates that
row, or inserts the key's first row), so the key's most recent row is its
first (and only) row in the table. -/
def lookupScore (t : List PlayerScore) (u g : String) : Option PlayerScore :=
  t.find? (fun ps => ps.username = u ∧ ps.game = g)

/-- Persisting `scoreRepository.save(ps)`: overwrite the existing row for the key of
`ps` (at most one exists under `recordGameResult`, matching JPA's
save-by-primary-key), or append `ps` as a new row. -/
def saveScore : List PlayerScore → PlayerScore → List PlayerScore
  | [], ps => [ps]
  | q :: rest, ps =>
      if q.username = ps.username ∧ q.game = ps.game then ps :: rest
      else q :: saveScore rest ps

/-- Next value of the auto-increment `id` column. -/
def freshScoreId (t : List PlayerScore) : Nat :=
  (t.map PlayerScore.id).foldr max 0 + 1

/-- The `PlayerScore` update at the end of
`ScoringService.recordGameResult`: if a row for `(username, game)` exists,
replace its score (and metadata) only when the new `payout` strictly
exceeds the stored best, otherwise advance only its timestamp; if no row
exists, insert one with `role = "player"` and `score = payout`. -/
def updatePlayerScore (t : List PlayerScore) (username game : String)
    (betAmount payout : ℚ) (now : Nat) : List PlayerScore :=
  match lookupScore t username game with
  | some existing =>
      if payout > existing.score then
        saveScore t { existing with
          score := payout, timestamp := now,
          metadata := some ⟨betAmount, payout, payout - betAmount⟩ }
      else
        saveScore t { existing with timestamp := now }
  | none =>
      saveScore t { id := freshScoreId t, username := username,
                    role := "player", game := game, score := payout,
                    timestamp := now,
                    metadata := some ⟨betAmount, payout, payout - betAmount⟩ }

/-- The persistent state of the scoring service: both tables. -/
structure ScoringState where
  gameResults : List GameResult
  playerScores : List PlayerScore
  deriving Repr, DecidableEq

/-- Embedding of `ScoringService.recordGameResult`: append the immutable `GameResult`
row, then derive the `PlayerScore` update from it. -/
def recordGameResultService (s : ScoringState) (r : GameResult) :
    ScoringState :=
  { gameResults := s.gameResults ++ [r],
    playerScores := updatePlayerScore s.playerScores r.username r.game
      r.betAmount r.payout r.timestamp }

/-- Embedding of `ScoringController.recordGameResult`: reject with HTTP 400 when
`betAmount` is null or `≤ 0`, before any call into the service; otherwise
delegate and answer 201. Returns the HTTP status and the resulting state. -/
def recordGameResultController (s : ScoringState)
    (username game action : String) (betAmount : Option ℚ) (payout : ℚ)
    (win : Bool) (now : Nat) : Nat × ScoringState :=
  match betAmount with
  | none => (400, s)
  | some b =>
      if b ≤ 0 then (400, s)
      else (201, recordGameResultService s
        { username := username, game := game, action := action,
          betAmount := b, payout := payout, win := win, timestamp := now })

/-- The best stored payout for a `(username, game)` key, if any
(`PlayerScore.score` of its row). -/
def bestPayout (t : List PlayerScore) (u g : String) : Option ℚ :=
  (lookupScore t u g).map PlayerScore.score

/-- Ordering on optional best payouts: an absent best is below anything. -/
def scoreLe : Option ℚ → Option ℚ → Prop
  | none, _ => True
  | some _, none => False
  | some a, some b => a ≤ b

instance (x y : Option ℚ) : Decidable (scoreLe x y) := by
  cases x <;> cases y <;> unfold scoreLe <;> infer_instance

/-! ## Scoring service: dashboard statistics -/

/-- Embedding of `GameResultRepository.countTotalByGame`: rounds of the game with
`betAmount > 0`. -/
def countTotalByGame (t : List GameResult) (g : String) : Nat :=
  (t.filter (fun r => r.game = g ∧ r.betAmount > 0)).length

/-- Embedding of `GameResultRepository.countWinsByGame`: winning rounds of the game with
`betAmount > 0`. -/
def countWinsByGame (t : List GameResult) (g : String) : Nat :=
  (t.filter (fun r => r.game = g ∧ r.win = true ∧ r.betAmount > 0)).length

/-- The `winRate` computation of `ScoringService.getDashboardStats`:
`totalWins / totalGames * 100`, and `0` when `totalGames = 0`. -/
def dashboardWinRate (t : List GameResult) (g : String) : ℚ :=
  if 0 < countTotalByGame t g then
    (countWinsByGame t g : ℚ) / (countTotalByGame t g : ℚ) * 100
  else 0

/-- The `ScoreResponse` DTO (leaderboard / top-players entry). -/
structure ScoreResponse where
  username : String
  role : String
  game : String
  score : ℚ
  rank : Nat
  initialBet : Option ℚ := none
  winnings : Option ℚ := none
  deriving Repr, DecidableEq

/-- The `DashboardStats` DTO. -/
structure DashboardStats where
  game : String
  totalGames : Nat
  totalWins : Nat
  totalLosses : Nat
  winRate : ℚ
  totalBetAmount : ℚ
  totalPayout : ℚ
  netRevenue : ℚ
  averageBetAmount : ℚ
  averagePayout : ℚ
  recentGames : Nat
  topPlayers : List ScoreResponse
  deriving Repr, DecidableEq

/-- The fixed game list of `getAllGamesDashboardStats`. -/
def allGamesList : List String := ["slots", "roulette", "dice", "blackjack"]

/-- The zero-valued stats row substituted when computing one game's stats
throws (`getAllGamesDashboardStats`, catch branch). -/
def emptyDashboardStats (g : String) : DashboardStats :=
  { game := g, totalGames := 0, totalWins := 0, totalLosses := 0,
    winRate := 0, totalBetAmount := 0, totalPayout := 0, netRevenue := 0,
    averageBetAmount := 0, averagePayout := 0, recentGames := 0,
    topPlayers := [] }

/-- Embedding of `ScoringService.getAllGamesDashboardStats`: map over the fixed game
list; a per-game computation that throws (`compute g = .error _`, modelling
the `try/catch`) degrades to the zero-valued stats row for that game. -/
def getAllGamesDashboardStats
    (compute : String → Except String DashboardStats) : List DashboardStats :=
  allGamesList.map (fun g =>
    match compute g with
    | .ok stats => stats
    | .error _ => emptyDashboardStats g)

/-! ## Scoring service: leaderboards (`getTopPlayers`) -/

/-- Stable insertion into a list already sorted by `score` descending: the
new row goes after every row whose score is at least as large. Together
with `sortByScoreDesc` this models `ORDER BY score DESC` of
`PlayerScoreRepository.findTopNByGame` (the query has no secondary sort
key, so rows with equal score stay in table order), and the stable
`Stream.sorted` in the `"all"` branch of `getTopPlayers`. -/
def insertByScoreDesc (a : PlayerScore) : List PlayerScore → List PlayerScore
  | [] => [a]
  | b :: bs =>
      if b.score > a.score then b :: insertByScoreDesc a bs else a :: b :: bs

/-- Stable sort by `score` descending. -/
def sortByScoreDesc (rows : List PlayerScore) : List PlayerScore :=
  rows.foldr insertByScoreDesc []

/-- Embedding of `PlayerScoreRepository.findTopNByGame`:
`SELECT * FROM player_scores WHERE game = :game ORDER BY score DESC LIMIT :limit`. -/
def findTopNByGame (t : List PlayerScore) (g : String) (n : Nat) :
    List PlayerScore :=
  (sortByScoreDesc (t.filter (fun ps => ps.game = g))).take n

/-- The merge function of the `Collectors.toMap` in
`getTopPlayers("all")`: `(a, b) -> a.getScore() > b.getScore() ? a : b`
(the later row `b` wins ties). -/
def mergeRow (a b : PlayerScore) : PlayerScore :=
  if a.score > b.score then a else b

/-- One `toMap` accumulation step: merge the row into the per-username
entry, or add a first entry for its username. -/
def putMerge : List PlayerScore → PlayerScore → List PlayerScore
  | [], row => [row]
  | q :: rest, row =>
      if q.username = row.username then mergeRow q row :: rest
      else q :: putMerge rest row

/-- The `Collectors.toMap(username, identity, merge)` reduction of
`getTopPlayers("all")`: one best row per username (first-encounter order
stands in for the `HashMap` value order). -/
def dedupeByUser (t : List PlayerScore) : List PlayerScore :=
  t.foldl putMerge []

/-- Embedding of `ScoringService.getTopPlayers`: for `"all"`, reduce to one best row per
username, then sort by score descending and truncate; otherwise delegate to
`findTopNByGame`. -/
def getTopPlayers (t : List PlayerScore) (g : String) (n : Nat) :
    List PlayerScore :=
  if g = "all" then (sortByScoreDesc (dedupeByUser t)).take n
  else findTopNByGame t g n

/-! ## Dice service (`dice/main.go`, `rollHandler`) -/

/-- The dice-pair computation of `rollHandler`. The two values the
service's randomness source would supply (`rand.Intn(6) + 1`) are
parameters, but the handler currently ignores them:
`d1 := 4 // rand.Intn(6) + 1` and `d2 := 3 // rand.Intn(6) + 1`
("TEMPORARY: Force winning dice for testing"). -/
def rollDicePair (rand1 rand2 : Nat) : Nat × Nat :=
  (4, 3)

/-- The settlement switch of `rollHandler`: win condition and payout
multiplier per bet type (unknown types fall back to the `pass` rule). -/
def diceSettle (d1 d2 : Nat) (betType : String) (betAmount : ℚ) : Bool × ℚ :=
  let sum := d1 + d2
  let winAndMult : Bool × ℚ :=
    if betType = "pass" then (sum = 7 ∨ sum = 11, 2)
    else if betType = "dont_pass" then (sum = 2 ∨ sum = 3, 2)
    else if betType = "field" then
      (sum = 2 ∨ sum = 3 ∨ sum = 4 ∨ sum = 9 ∨ sum = 10 ∨ sum = 11 ∨
        sum = 12, 2)
    else if betType = "snake_eyes" then (d1 = 1 ∧ d2 = 1, 30)
    else if betType = "boxcars" then (d1 = 6 ∧ d2 = 6, 30)
    else if betType = "seven_out" then (sum = 7, 4)
    else (sum = 7 ∨ sum = 11, 2)
  (winAndMult.1, if winAndMult.1 then betAmount * winAndMult.2 else 0)

/-! ## Theorems -/

lemma reduceAces_le_or_exhausted (aces score : Nat) :
    reduceAces score aces ≤ 21 ∨ reduceAces score aces = score - 10 * aces := by
  induction aces generalizing score with
  | zero => right; simp [reduceAces]
  | succ a ih =>
      rw [reduceAces]
      by_cases h : 21 < score
      · simp only [if_pos h]
        rcases ih (score - 10) with h1 | h1
        · exact Or.inl h1
        · right
          rw [h1]
          omega
      · left
        simp only [if_neg h]
        omega

lemma sum_cardBase_eq (hand : List Card) :
    (hand.map cardBase).sum = hardScore hand + 10 * aceCount hand := by
  induction hand with
  | nil => simp [hardScore, aceCount]
  | cons c cs ih =>
      by_cases h : c.rank = 1
      · simp [hardScore, aceCount, cardBase, h, List.filter] at ih ⊢
        omega
      · simp [hardScore, aceCount, cardBase, h, List.filter] at ih ⊢
        omega

/-- Claim C2: For every hand, `scoreHand` (which counts each ace as 11 and then
repeatedly subtracts 10 per ace while the total exceeds 21) returns a score
that is at most 21, or else a score in which every ace already counts as 1
(`hardScore`) — i.e. the score is never above 21 while some ace can still be
reduced. -/
theorem scoreHand_le_21_or_hard (hand : List Card) :
    scoreHand hand ≤ 21 ∨ scoreHand hand = hardScore hand := by
  unfold scoreHand
  rcases reduceAces_le_or_exhausted (aceCount hand) ((hand.map cardBase).sum) with h | h
  · exact Or.inl h
  · right
    rw [h, sum_cardBase_eq]
    omega

lemma gamesGet_gamesSet_self (s : GameStore) (u : String) (g : BJGame) :
    gamesGet (gamesSet s u g) u = some g := by
  induction s with
  | nil => simp [gamesGet, gamesSet, List.find?]
  | cons p rest ih =>
      obtain ⟨v, h⟩ := p
      by_cases hv : v = u
      · simp [gamesSet, hv, gamesGet, List.find?]
      · simp [gamesSet, hv, gamesGet, List.find?] at ih ⊢
        exact ih

/-- Claim C6: Any blackjack action (`Hit`, `Stand`, `Double`) for a player
with no stored session fails with HTTP 400 / "No active hand" and creates
no implicit state: the session store after the failed call is exactly the
store before it. -/
theorem noSession_rejected (s : GameStore) (u : String) (card : Card)
    (deck : List Card) (ddEnabled : Bool) (h : gamesGet s u = none) :
    hitHandler s u card = (.error (400, "No active hand"), s) ∧
    standHandler s u deck = (.error (400, "No active hand"), s) ∧
    doubleHandler s u ddEnabled card = (.error (400, "No active hand"), s) := by
  refine ⟨?_, ?_, ?_⟩ <;> simp [hitHandler, standHandler, doubleHandler, h]

/-- Witness for `noSession_rejected`: the empty store has no session for
"alice", and all three handlers reject without touching the store. -/
theorem noSession_rejected_witness :
    gamesGet [] "alice" = none ∧
    hitHandler [] "alice" ⟨5, "h"⟩ = (.error (400, "No active hand"), []) ∧
    standHandler [] "alice" [] = (.error (400, "No active hand"), []) ∧
    doubleHandler [] "alice" true ⟨5, "h"⟩ =
      (.error (400, "No active hand"), []) := by
  have h := noSession_rejected [] "alice" ⟨5, "h"⟩ [] true rfl
  exact ⟨rfl, h.1, h.2.1, h.2.2⟩

/-- Counterexample to C4: A `Hit` that busts the player does NOT settle or
remove the session: with player hand K♠ Q♦ and drawn card 5♦, the handler
reports score 25 (> 21) yet the session for "alice" is still in the store
after the call. -/
theorem hit_bust_keeps_session_counterexample :
    ((hitHandler
        [("alice", { playerHand := [⟨13, "s"⟩, ⟨12, "d"⟩],
                     dealerHand := [⟨5, "h"⟩, ⟨9, "c"⟩], betAmount := 10 })]
        "alice" ⟨5, "d"⟩).1.toOption.map HitResp.playerScore = some 25) ∧
    21 < 25 ∧
    (gamesGet (hitHandler
        [("alice", { playerHand := [⟨13, "s"⟩, ⟨12, "d"⟩],
                     dealerHand := [⟨5, "h"⟩, ⟨9, "c"⟩], betAmount := 10 })]
        "alice" ⟨5, "d"⟩).2 "alice").isSome = true := by
  refine ⟨?_, by norm_num, ?_⟩ <;> rfl

/-- Claim C4 as amended: `Hit` on an existing session draws exactly one card
(the hand is extended by exactly the drawn card) and always keeps the
session stored — also when the resulting score exceeds 21; a busted hand is
settled as a loss only by a subsequent `Stand`. -/
theorem hitHandler_always_keeps_session (s : GameStore) (u : String)
    (g : BJGame) (card : Card) (h : gamesGet s u = some g) :
    (hitHandler s u card).1 =
      .ok { newCard := card,
            playerScore := scoreHand (g.playerHand ++ [card]),
            dealerScore := scoreHand (g.dealerHand.take 1) } ∧
    gamesGet (hitHandler s u card).2 u =
      some { g with playerHand := g.playerHand ++ [card] } ∧
    (∀ deck, 21 < scoreHand (g.playerHand ++ [card]) →
      ((standHandler (hitHandler s u card).2 u deck).1.toOption.map
        StandResp.result) = some "lose") := by
  refine ⟨by simp [hitHandler, h], by simp [hitHandler, h, gamesGet_gamesSet_self], ?_⟩
  intro deck hbust
  simp only [hitHandler, h, standHandler, gamesGet_gamesSet_self]
  simp [bjResult, hbust, Except.toOption]

/-- Witness for `hitHandler_always_keeps_session`: a concrete session for
"bob" with hand 9♣ 8♦; after drawing a 5 the session is still stored with
the extended hand. -/
theorem hitHandler_always_keeps_session_witness :
    gamesGet [("bob", { playerHand := [⟨9, "c"⟩, ⟨8, "d"⟩],
                        dealerHand := [⟨10, "h"⟩, ⟨2, "c"⟩],
                        betAmount := 10 })] "bob" =
      some { playerHand := [⟨9, "c"⟩, ⟨8, "d"⟩],
             dealerHand := [⟨10, "h"⟩, ⟨2, "c"⟩], betAmount := 10 } ∧
    gamesGet (hitHandler
        [("bob", { playerHand := [⟨9, "c"⟩, ⟨8, "d"⟩],
                   dealerHand := [⟨10, "h"⟩, ⟨2, "c"⟩],
                   betAmount := 10 })] "bob" ⟨5, "s"⟩).2 "bob" =
      some { playerHand := [⟨9, "c"⟩, ⟨8, "d"⟩, ⟨5, "s"⟩],
             dealerHand := [⟨10, "h"⟩, ⟨2, "c"⟩], betAmount := 10 } := by
  refine ⟨by decide, ?_⟩
  exact (hitHandler_always_keeps_session
    [("bob", { playerHand := [⟨9, "c"⟩, ⟨8, "d"⟩],
               dealerHand := [⟨10, "h"⟩, ⟨2, "c"⟩], betAmount := 10 })]
    "bob"
    { playerHand := [⟨9, "c"⟩, ⟨8, "d"⟩],
      dealerHand := [⟨10, "h"⟩, ⟨2, "c"⟩], betAmount := 10 }
    ⟨5, "s"⟩ (by decide)).2.1

/-- Claim C5: `Stand` on an existing session: the dealer draws exactly while
his score is below 17 (a 17+ hand draws nothing; a sub-17 hand draws and
continues), the session is deleted, and the settlement is: player score
over 21 → "lose", payout 0; otherwise dealer bust or player strictly ahead
→ "win", payout `betAmount * 2`; equal scores → "push", payout `betAmount`;
otherwise "lose", payout 0. -/
theorem standHandler_spec :
    (∀ hand deck, 17 ≤ scoreHand hand → dealerDraw hand deck = hand) ∧
    (∀ hand c deck, scoreHand hand < 17 →
      dealerDraw hand (c :: deck) = dealerDraw (hand ++ [c]) deck) ∧
    (∀ s u g deck, gamesGet s u = some g →
      standHandler s u deck =
        (.ok { dealerFinalHand := dealerDraw g.dealerHand deck,
               dealerScore := scoreHand (dealerDraw g.dealerHand deck),
               result := bjResult (scoreHand g.playerHand)
                 (scoreHand (dealerDraw g.dealerHand deck)),
               payout := bjPayout (bjResult (scoreHand g.playerHand)
                 (scoreHand (dealerDraw g.dealerHand deck))) g.betAmount },
         gamesDelete s u)) ∧
    (∀ p d b, 21 < p →
      bjResult p d = "lose" ∧ bjPayout (bjResult p d) b = 0) ∧
    (∀ p d b, p ≤ 21 → (21 < d ∨ d < p) →
      bjResult p d = "win" ∧ bjPayout (bjResult p d) b = b * 2) ∧
    (∀ p d b, p ≤ 21 → d ≤ 21 → p = d →
      bjResult p d = "push" ∧ bjPayout (bjResult p d) b = b) ∧
    (∀ p d b, p ≤ 21 → d ≤ 21 → p < d →
      bjResult p d = "lose" ∧ bjPayout (bjResult p d) b = 0) := by
  refine ⟨?_, ?_, ?_, ?_, ?_, ?_, ?_⟩
  · intro hand deck h17
    cases deck with
    | nil => simp [dealerDraw]
    | cons c rest => simp [dealerDraw, Nat.not_lt.mpr h17]
  · intro hand c deck hlt
    simp [dealerDraw, hlt]
  · intro s u g deck h
    simp [standHandler, h]
  · intro p d b hbust
    have hr : bjResult p d = "lose" := by simp [bjResult, hbust]
    refine ⟨hr, ?_⟩
    rw [hr]
    simp [bjPayout]
  · intro p d b hok hwin
    have hw : d > 21 ∨ p > d := by omega
    have hr : bjResult p d = "win" := by
      simp only [bjResult, if_neg (by omega : ¬ p > 21), if_pos hw]
    refine ⟨hr, ?_⟩
    rw [hr]
    simp [bjPayout]
  · intro p d b hok hdok heq
    have hnw : ¬ (d > 21 ∨ p > d) := by omega
    have hr : bjResult p d = "push" := by
      simp only [bjResult, if_neg (by omega : ¬ p > 21), if_neg hnw,
        if_pos heq]
    refine ⟨hr, ?_⟩
    rw [hr]
    simp [bjPayout]
  · intro p d b hok hdok hlt
    have hnw : ¬ (d > 21 ∨ p > d) := by omega
    have hr : bjResult p d = "lose" := by
      simp only [bjResult, if_neg (by omega : ¬ p > 21), if_neg hnw,
        if_neg (by omega : ¬ p = d)]
    refine ⟨hr, ?_⟩
    rw [hr]
    simp [bjPayout]

/-- Witness for `standHandler_spec`, realising the spec scenario: a dealer
hand 10+7 (score 17) draws no further card, a dealer hand 10+6 (score 16)
draws again, and a player at 20 against a settled dealer at 18 loses with
payout 0 while the session is deleted. -/
theorem standHandler_spec_witness :
    (17 ≤ scoreHand [⟨10, "s"⟩, ⟨7, "h"⟩] ∧
      dealerDraw [⟨10, "s"⟩, ⟨7, "h"⟩] [⟨2, "c"⟩] = [⟨10, "s"⟩, ⟨7, "h"⟩]) ∧
    (scoreHand [⟨10, "s"⟩, ⟨6, "h"⟩] < 17 ∧
      dealerDraw [⟨10, "s"⟩, ⟨6, "h"⟩] [⟨2, "c"⟩] =
        dealerDraw [⟨10, "s"⟩, ⟨6, "h"⟩, ⟨2, "c"⟩] []) ∧
    (standHandler [("carol", { playerHand := [⟨10, "s"⟩, ⟨9, "h"⟩],
                               dealerHand := [⟨10, "d"⟩, ⟨8, "c"⟩],
                               betAmount := 10 })] "carol" []).2 =
      gamesDelete [("carol", { playerHand := [⟨10, "s"⟩, ⟨9, "h"⟩],
                               dealerHand := [⟨10, "d"⟩, ⟨8, "c"⟩],
                               betAmount := 10 })] "carol" ∧
    (19 ≤ 21 ∧ 18 ≤ 21 ∧ 18 < 19 ∧
      bjResult 18 19 = "lose" ∧ bjPayout (bjResult 18 19) 10 = 0) := by
  refine ⟨⟨by decide, standHandler_spec.1 _ _ (by decide)⟩,
          ⟨by decide, standHandler_spec.2.1 _ _ _ (by decide)⟩,
          ?_,
          by decide, by decide, by decide,
          standHandler_spec.2.2.2.2.2.2 18 19 10 (by decide) (by decide)
            (by decide)⟩
  have h := standHandler_spec.2.2.1
    [("carol", { playerHand := [⟨10, "s"⟩, ⟨9, "h"⟩],
                 dealerHand := [⟨10, "d"⟩, ⟨8, "c"⟩], betAmount := 10 })]
    "carol"
    { playerHand := [⟨10, "s"⟩, ⟨9, "h"⟩],
      dealerHand := [⟨10, "d"⟩, ⟨8, "c"⟩], betAmount := 10 }
    [] (by decide)
  rw [h]

lemma lookupScore_key {t : List PlayerScore} {u g : String} {ps : PlayerScore}
    (h : lookupScore t u g = some ps) : ps.username = u ∧ ps.game = g := by
  have := List.find?_some h
  simpa using this

lemma lookupScore_saveScore_self (t : List PlayerScore) (ps : PlayerScore) :
    lookupScore (saveScore t ps) ps.username ps.game = some ps := by
  induction t with
  | nil => simp [saveScore, lookupScore, List.find?]
  | cons q rest ih =>
      by_cases hq : q.username = ps.username ∧ q.game = ps.game
      · simp [saveScore, hq, lookupScore, List.find?]
      · simp only [saveScore, if_neg hq]
        simp only [lookupScore, List.find?] at ih ⊢
        rw [decide_eq_false hq]
        exact ih

lemma lookupScore_saveScore_other (t : List PlayerScore) (ps : PlayerScore)
    (u g : String) (h : ¬ (ps.username = u ∧ ps.game = g)) :
    lookupScore (saveScore t ps) u g = lookupScore t u g := by
  induction t with
  | nil => simp [saveScore, lookupScore, List.find?, h]
  | cons q rest ih =>
      by_cases hq : q.username = ps.username ∧ q.game = ps.game
      · have hqn : ¬ (q.username = u ∧ q.game = g) := by
          rintro ⟨h1, h2⟩
          exact h ⟨hq.1 ▸ h1, hq.2 ▸ h2⟩
        simp [saveScore, hq, lookupScore, List.find?, h, hqn]
      · simp only [saveScore, if_neg hq]
        simp only [lookupScore, List.find?] at ih ⊢
        cases hd : decide (q.username = u ∧ q.game = g) with
        | true => rfl
        | false => exact ih

lemma scoreLe_refl (x : Option ℚ) : scoreLe x x := by
  cases x <;> simp [scoreLe]

lemma scoreLe_trans {x y z : Option ℚ} (h1 : scoreLe x y) (h2 : scoreLe y z) :
    scoreLe x z := by
  cases x with
  | none => trivial
  | some a =>
      cases y with
      | none => exact absurd h1 (by simp [scoreLe])
      | some b =>
          cases z with
          | none => exact absurd h2 (by simp [scoreLe])
          | some c => exact le_trans h1 h2

lemma bestPayout_saveScore_hit (t : List PlayerScore) (ps : PlayerScore)
    (u g : String) (h : ps.username = u ∧ ps.game = g) :
    bestPayout (saveScore t ps) u g = some ps.score := by
  rw [bestPayout, ← h.1, ← h.2, lookupScore_saveScore_self]
  rfl

lemma bestPayout_saveScore_miss (t : List PlayerScore) (ps : PlayerScore)
    (u g : String) (h : ¬ (ps.username = u ∧ ps.game = g)) :
    bestPayout (saveScore t ps) u g = bestPayout t u g := by
  rw [bestPayout, lookupScore_saveScore_other t ps u g h, bestPayout]

lemma bestPayout_update_mono (t : List PlayerScore) (u g u' g' : String)
    (bet p : ℚ) (now : Nat) :
    scoreLe (bestPayout t u g)
      (bestPayout (updatePlayerScore t u' g' bet p now) u g) := by
  cases hex : lookupScore t u' g' with
  | none =>
      simp only [updatePlayerScore, hex]
      by_cases hk : u' = u ∧ g' = g
      · have h0 : bestPayout t u g = none := by
          rw [bestPayout, ← hk.1, ← hk.2, hex]
          rfl
        rw [h0]
        trivial
      · rw [bestPayout_saveScore_miss t _ u g (by simpa using hk)]
        exact scoreLe_refl _
  | some ex =>
      obtain ⟨hu, hg⟩ := lookupScore_key hex
      simp only [updatePlayerScore, hex]
      by_cases hp : p > ex.score
      · rw [if_pos hp]
        by_cases hk : ex.username = u ∧ ex.game = g
        · rw [bestPayout_saveScore_hit t _ u g (by simpa using hk)]
          have h0 : bestPayout t u g = some ex.score := by
            rw [bestPayout, ← hk.1, ← hk.2, hu, hg, hex]
            rfl
          rw [h0]
          simp only [scoreLe]
          exact le_of_lt hp
        · rw [bestPayout_saveScore_miss t _ u g (by simpa using hk)]
          exact scoreLe_refl _
      · rw [if_neg hp]
        by_cases hk : ex.username = u ∧ ex.game = g
        · rw [bestPayout_saveScore_hit t _ u g (by simpa using hk)]
          have h0 : bestPayout t u g = some ex.score := by
            rw [bestPayout, ← hk.1, ← hk.2, hu, hg, hex]
            rfl
          rw [h0]
          simp [scoreLe]
        · rw [bestPayout_saveScore_miss t _ u g (by simpa using hk)]
          exact scoreLe_refl _

/-- Claim C1: Along any sequence of round results processed by
`recordGameResult`, the stored best payout of every `(player, game)` key is
monotonically non-decreasing; a round whose payout does not exceed the
stored best advances only the row's timestamp (score and metadata are
untouched), and a round whose payout strictly exceeds it replaces the
stored best by that payout. -/
theorem recordGameResult_bestPayout_monotone :
    (∀ (s : ScoringState) (u g : String) (rs : List GameResult),
      scoreLe (bestPayout s.playerScores u g)
        (bestPayout (rs.foldl recordGameResultService s).playerScores u g)) ∧
    (∀ (t : List PlayerScore) (u g : String) (bet p : ℚ) (now : Nat)
        (ps : PlayerScore), lookupScore t u g = some ps → p ≤ ps.score →
      lookupScore (updatePlayerScore t u g bet p now) u g =
        some { ps with timestamp := now }) ∧
    (∀ (t : List PlayerScore) (u g : String) (bet p : ℚ) (now : Nat)
        (ps : PlayerScore), lookupScore t u g = some ps → ps.score < p →
      lookupScore (updatePlayerScore t u g bet p now) u g =
        some { ps with score := p, timestamp := now,
                       metadata := some ⟨bet, p, p - bet⟩ }) := by
  refine ⟨?_, ?_, ?_⟩
  · intro s u g rs
    induction rs generalizing s with
    | nil => exact scoreLe_refl _
    | cons r rest ih =>
        refine scoreLe_trans ?_ (ih (recordGameResultService s r))
        exact bestPayout_update_mono s.playerScores u g r.username r.game
          r.betAmount r.payout r.timestamp
  · intro t u g bet p now ps h hle
    obtain ⟨hu, hg⟩ := lookupScore_key h
    simp only [updatePlayerScore, h]
    rw [if_neg (not_lt.mpr hle)]
    have hs := lookupScore_saveScore_self t { ps with timestamp := now }
    simpa [hu, hg] using hs
  · intro t u g bet p now ps h hlt
    obtain ⟨hu, hg⟩ := lookupScore_key h
    simp only [updatePlayerScore, h]
    rw [if_pos hlt]
    have hs := lookupScore_saveScore_self t
      { ps with score := p, timestamp := now,
                metadata := some ⟨bet, p, p - bet⟩ }
    simpa [hu, hg] using hs

/-- Witness for `recordGameResult_bestPayout_monotone`, realising the spec
scenario: after a round with payout 50, a second round with payout 30 for
the same player/game leaves the best payout at 50 and only advances the
timestamp. -/
theorem recordGameResult_bestPayout_monotone_witness :
    lookupScore (updatePlayerScore [] "dave" "blackjack" 25 50 1)
      "dave" "blackjack" =
      some ⟨1, "dave", "player", "blackjack", 50, 1, some ⟨25, 50, 50 - 25⟩⟩ ∧
    (30 : ℚ) ≤ 50 ∧
    lookupScore (updatePlayerScore
        (updatePlayerScore [] "dave" "blackjack" 25 50 1)
        "dave" "blackjack" 25 30 2) "dave" "blackjack" =
      some ⟨1, "dave", "player", "blackjack", 50, 2, some ⟨25, 50, 50 - 25⟩⟩ := by
  refine ⟨by rfl, by norm_num, ?_⟩
  exact recordGameResult_bestPayout_monotone.2.1
    (updatePlayerScore [] "dave" "blackjack" 25 50 1) "dave" "blackjack"
    25 30 2 ⟨1, "dave", "player", "blackjack", 50, 1, some ⟨25, 50, 50 - 25⟩⟩
    (by rfl) (by norm_num)

/-- Claim C3: A game-result submission whose `betAmount` is null, zero or
negative is rejected with HTTP 400 before any side effect: the scoring
state is exactly unchanged, hence so are the dashboard counters, the win
rate, and every stored best payout. -/
theorem controller_rejects_invalid_bet (s : ScoringState)
    (username game action : String) (betAmount : Option ℚ) (payout : ℚ)
    (win : Bool) (now : Nat)
    (h : betAmount = none ∨ ∃ b, betAmount = some b ∧ b ≤ 0) :
    recordGameResultController s username game action betAmount payout win now
      = (400, s) ∧
    (∀ q, countTotalByGame
      (recordGameResultController s username game action betAmount payout win
        now).2.gameResults q = countTotalByGame s.gameResults q) ∧
    (∀ q, dashboardWinRate
      (recordGameResultController s username game action betAmount payout win
        now).2.gameResults q = dashboardWinRate s.gameResults q) ∧
    (∀ u' g', bestPayout
      (recordGameResultController s username game action betAmount payout win
        now).2.playerScores u' g' = bestPayout s.playerScores u' g') := by
  have key : recordGameResultController s username game action betAmount
      payout win now = (400, s) := by
    rcases h with h | ⟨b, rfl, hb⟩
    · subst h; rfl
    · simp [recordGameResultController, hb]
  refine ⟨key, ?_, ?_, ?_⟩
  · intro q; rw [key]
  · intro q; rw [key]
  · intro u' g'; rw [key]

/-- Witness for `controller_rejects_invalid_bet`: a submission with
`betAmount = 0` on the empty state is answered 400 and changes nothing. -/
theorem controller_rejects_invalid_bet_witness :
    (some (0 : ℚ) = none ∨ ∃ b, some (0 : ℚ) = some b ∧ b ≤ 0) ∧
    recordGameResultController ⟨[], []⟩ "erin" "dice" "roll" (some 0) 20 true 7
      = (400, ⟨[], []⟩) := by
  refine ⟨Or.inr ⟨0, rfl, le_refl 0⟩, ?_⟩
  exact (controller_rejects_invalid_bet ⟨[], []⟩ "erin" "dice" "roll"
    (some 0) 20 true 7 (Or.inr ⟨0, rfl, le_refl 0⟩)).1

lemma countWins_le_countTotal (t : List GameResult) (g : String) :
    countWinsByGame t g ≤ countTotalByGame t g := by
  induction t with
  | nil => simp [countWinsByGame, countTotalByGame]
  | cons r rs ih =>
      simp only [countWinsByGame, countTotalByGame, List.filter] at ih ⊢
      cases hw : decide (r.game = g ∧ r.win = true ∧ r.betAmount > 0) with
      | false =>
          cases ht : decide (r.game = g ∧ r.betAmount > 0) with
          | false => exact ih
          | true => simp only [List.length_cons]; omega
      | true =>
          have hw' := of_decide_eq_true hw
          have ht : decide (r.game = g ∧ r.betAmount > 0) = true :=
            decide_eq_true ⟨hw'.1, hw'.2.2⟩
          rw [ht]
          simp only [List.length_cons]
          omega

/-- Claim C7: For every table of round results and every game, the dashboard
`winRate` is `totalWins / totalGames * 100` over the rounds with
`betAmount > 0`, is exactly 0 when `totalGames = 0`, and always lies in
`[0, 100]` because every counted win is also a counted game. -/
theorem dashboardWinRate_spec (t : List GameResult) (g : String) :
    countWinsByGame t g ≤ countTotalByGame t g ∧
    (countTotalByGame t g = 0 → dashboardWinRate t g = 0) ∧
    (0 < countTotalByGame t g →
      dashboardWinRate t g =
        (countWinsByGame t g : ℚ) / (countTotalByGame t g : ℚ) * 100) ∧
    0 ≤ dashboardWinRate t g ∧ dashboardWinRate t g ≤ 100 := by
  have hwt := countWins_le_countTotal t g
  refine ⟨hwt, ?_, ?_, ?_, ?_⟩
  · intro h0
    simp [dashboardWinRate, h0]
  · intro hpos
    simp [dashboardWinRate, hpos]
  · unfold dashboardWinRate
    split
    · positivity
    · exact le_refl 0
  · unfold dashboardWinRate
    split
    · rename_i hpos
      have ht : (0 : ℚ) < (countTotalByGame t g : ℚ) := by
        exact_mod_cast hpos
      have h1 : (countWinsByGame t g : ℚ) / (countTotalByGame t g : ℚ) ≤ 1 :=
        (div_le_one ht).mpr (by exact_mod_cast hwt)
      calc (countWinsByGame t g : ℚ) / (countTotalByGame t g : ℚ) * 100
          ≤ 1 * 100 := by
            exact mul_le_mul_of_nonneg_right h1 (by norm_num)
        _ = 100 := by norm_num
    · norm_num

/-- Witness for `dashboardWinRate_spec`: one dice win and one dice loss
(both with positive bets) give a 50% win rate; an empty table gives 0. -/
theorem dashboardWinRate_spec_witness :
    countTotalByGame [] "dice" = 0 ∧ dashboardWinRate [] "dice" = 0 ∧
    0 < countTotalByGame
      [⟨"erin", "dice", "roll", 10, 20, true, 1⟩,
       ⟨"finn", "dice", "roll", 10, 0, false, 2⟩] "dice" ∧
    dashboardWinRate
      [⟨"erin", "dice", "roll", 10, 20, true, 1⟩,
       ⟨"finn", "dice", "roll", 10, 0, false, 2⟩] "dice" =
      (countWinsByGame
        [⟨"erin", "dice", "roll", 10, 20, true, 1⟩,
         ⟨"finn", "dice", "roll", 10, 0, false, 2⟩] "dice" : ℚ) /
      (countTotalByGame
        [⟨"erin", "dice", "roll", 10, 20, true, 1⟩,
         ⟨"finn", "dice", "roll", 10, 0, false, 2⟩] "dice" : ℚ) * 100 := by
  refine ⟨rfl, (dashboardWinRate_spec [] "dice").2.1 rfl, ?_, ?_⟩
  · norm_num [countTotalByGame, List.filter]
  · exact (dashboardWinRate_spec
      [⟨"erin", "dice", "roll", 10, 20, true, 1⟩,
       ⟨"finn", "dice", "roll", 10, 0, false, 2⟩] "dice").2.2.1
      (by norm_num [countTotalByGame, List.filter])

/-- Claim C8: Computing dashboard stats for all games never aborts the
batch: whatever the per-game computation does (including throwing), the
result has one entry per game of the fixed list `slots, roulette, dice,
blackjack` (in order, carrying that game's name whenever the per-game
computation labels its output correctly), and any game whose computation
throws is represented by the zero-valued stats row (all counters and
amounts 0, empty top-players list) instead of an error. -/
theorem getAllGamesDashboardStats_spec :
    (∀ compute, (getAllGamesDashboardStats compute).length =
      allGamesList.length) ∧
    (∀ compute, (∀ g stats, compute g = .ok stats → stats.game = g) →
      (getAllGamesDashboardStats compute).map DashboardStats.game =
        allGamesList) ∧
    (∀ compute i g e, allGamesList.get? i = some g → compute g = .error e →
      (getAllGamesDashboardStats compute).get? i =
        some (emptyDashboardStats g)) ∧
    (∀ g, (emptyDashboardStats g).game = g ∧
      (emptyDashboardStats g).totalGames = 0 ∧
      (emptyDashboardStats g).totalWins = 0 ∧
      (emptyDashboardStats g).totalLosses = 0 ∧
      (emptyDashboardStats g).winRate = 0 ∧
      (emptyDashboardStats g).totalBetAmount = 0 ∧
      (emptyDashboardStats g).totalPayout = 0 ∧
      (emptyDashboardStats g).netRevenue = 0 ∧
      (emptyDashboardStats g).averageBetAmount = 0 ∧
      (emptyDashboardStats g).averagePayout = 0 ∧
      (emptyDashboardStats g).recentGames = 0 ∧
      (emptyDashboardStats g).topPlayers = []) := by
  refine ⟨?_, ?_, ?_, ?_⟩
  · intro compute
    simp [getAllGamesDashboardStats]
  · intro compute hok
    have key : ∀ g, (match compute g with
        | .ok stats => stats
        | .error _ => emptyDashboardStats g).game = g := by
      intro g
      cases h : compute g with
      | ok stats => simpa using hok g stats h
      | error e => simp [emptyDashboardStats]
    simp [getAllGamesDashboardStats, allGamesList, key]
  · intro compute i g e hg h
    rcases i with _ | _ | _ | _ | i <;>
      simp_all [getAllGamesDashboardStats, allGamesList]
  · intro g
    exact ⟨rfl, rfl, rfl, rfl, rfl, rfl, rfl, rfl, rfl, rfl, rfl, rfl⟩

/-- A per-game stats computation that throws for "dice" and succeeds for
the other games — a concrete input for `getAllGamesDashboardStats`. -/
def failDiceCompute : String → Except String DashboardStats := fun g =>
  if g = "dice" then .error "db down" else .ok (emptyDashboardStats g)

/-- Witness for `getAllGamesDashboardStats_spec`: with a computation that
throws exactly for "dice", the batch still lists all four games and the
"dice" slot carries the zero-valued row. -/
theorem getAllGamesDashboardStats_spec_witness :
    (getAllGamesDashboardStats failDiceCompute).map DashboardStats.game =
      allGamesList ∧
    failDiceCompute "dice" = .error "db down" ∧
    (getAllGamesDashboardStats failDiceCompute).get? 2 =
      some (emptyDashboardStats "dice") := by
  refine ⟨?_, by rfl, ?_⟩
  · refine getAllGamesDashboardStats_spec.2.1 failDiceCompute ?_
    intro g stats h
    by_cases hg : g = "dice"
    · simp [failDiceCompute, hg] at h
    · simp only [failDiceCompute, if_neg hg, Except.ok.injEq] at h
      rw [← h]
      rfl
  · exact getAllGamesDashboardStats_spec.2.2.1 failDiceCompute 2 "dice"
      "db down" (by rfl) (by rfl)

/-- Claim C10: The dice pair returned by `rollHandler` is a constant `(4, 3)`
independent of the randomness source (the `rand.Intn` draws are commented
out), so the same pair — and hence the same settlement for a fixed bet —
comes back for every value of the randomness source; in particular `(4, 3)`
with bet type `pass` always wins with payout `2 × betAmount`. -/
theorem rollDicePair_constant :
    (∀ r1 r2 r1' r2', rollDicePair r1 r2 = rollDicePair r1' r2') ∧
    (∀ r1 r2, rollDicePair r1 r2 = (4, 3)) ∧
    (∀ b : ℚ, diceSettle 4 3 "pass" b = (true, b * 2)) := by
  refine ⟨fun _ _ _ _ => rfl, fun _ _ => rfl, fun b => ?_⟩
  simp [diceSettle]

lemma mem_insertByScoreDesc {a ps : PlayerScore} {l : List PlayerScore} :
    ps ∈ insertByScoreDesc a l ↔ ps = a ∨ ps ∈ l := by
  induction l with
  | nil => simp [insertByScoreDesc]
  | cons b bs ih =>
      by_cases h : b.score > a.score
      · simp [insertByScoreDesc, h, ih]
        tauto
      · simp [insertByScoreDesc, h]

lemma pairwise_insertByScoreDesc {l : List PlayerScore} {a : PlayerScore}
    (h : l.Pairwise (fun x y => y.score ≤ x.score)) :
    (insertByScoreDesc a l).Pairwise (fun x y => y.score ≤ x.score) := by
  induction l with
  | nil => simp [insertByScoreDesc]
  | cons b bs ih =>
      rw [List.pairwise_cons] at h
      obtain ⟨hb, hbs⟩ := h
      by_cases hgt : b.score > a.score
      · rw [insertByScoreDesc, if_pos hgt, List.pairwise_cons]
        refine ⟨?_, ih hbs⟩
        intro y hy
        rcases mem_insertByScoreDesc.mp hy with rfl | hy'
        · exact le_of_lt hgt
        · exact hb y hy'
      · rw [insertByScoreDesc, if_neg hgt, List.pairwise_cons]
        refine ⟨?_, List.pairwise_cons.mpr ⟨hb, hbs⟩⟩
        intro y hy
        rcases List.mem_cons.mp hy with rfl | hy'
        · exact not_lt.mp hgt
        · exact le_trans (hb y hy') (not_lt.mp hgt)

lemma mem_sortByScoreDesc {l : List PlayerScore} {ps : PlayerScore} :
    ps ∈ sortByScoreDesc l ↔ ps ∈ l := by
  induction l with
  | nil => simp [sortByScoreDesc]
  | cons x xs ih =>
      simp only [sortByScoreDesc, List.foldr_cons] at ih ⊢
      rw [mem_insertByScoreDesc, ih, List.mem_cons]

lemma pairwise_sortByScoreDesc (l : List PlayerScore) :
    (sortByScoreDesc l).Pairwise (fun x y => y.score ≤ x.score) := by
  induction l with
  | nil => simp [sortByScoreDesc]
  | cons x xs ih =>
      simp only [sortByScoreDesc, List.foldr_cons] at ih ⊢
      exact pairwise_insertByScoreDesc ih

/-- The lexicographic order realised by the stable sort on an id-ordered
table: strictly larger score first, ties in ascending id (= table) order. -/
def scoreIdRel (a b : PlayerScore) : Prop :=
  b.score < a.score ∨ (a.score = b.score ∧ a.id < b.id)

lemma pairwise_lex_insert {a : PlayerScore} {l : List PlayerScore}
    (hall : ∀ b ∈ l, a.id < b.id) (h : l.Pairwise scoreIdRel) :
    (insertByScoreDesc a l).Pairwise scoreIdRel := by
  induction l with
  | nil => simp [insertByScoreDesc]
  | cons b bs ih =>
      rw [List.pairwise_cons] at h
      obtain ⟨hb, hbs⟩ := h
      have hallb : ∀ y ∈ bs, a.id < y.id := fun y hy =>
        hall y (List.mem_cons_of_mem b hy)
      by_cases hgt : b.score > a.score
      · rw [insertByScoreDesc, if_pos hgt, List.pairwise_cons]
        refine ⟨?_, ih hallb hbs⟩
        intro y hy
        rcases mem_insertByScoreDesc.mp hy with rfl | hy'
        · exact Or.inl hgt
        · exact hb y hy'
      · rw [insertByScoreDesc, if_neg hgt, List.pairwise_cons]
        refine ⟨?_, List.pairwise_cons.mpr ⟨hb, hbs⟩⟩
        intro y hy
        rcases List.mem_cons.mp hy with rfl | hy'
        · rcases lt_or_eq_of_le (not_lt.mp hgt) with hlt | heq
          · exact Or.inl hlt
          · exact Or.inr ⟨heq.symm, hall y (List.mem_cons_self y bs)⟩
        · rcases hb y hy' with hlt | ⟨heq, _⟩
          · exact Or.inl (lt_of_lt_of_le hlt (not_lt.mp hgt))
          · rcases lt_or_eq_of_le (le_trans heq.ge (not_lt.mp hgt)) with h1 | h1
            · exact Or.inl h1
            · exact Or.inr ⟨h1.symm, hallb y hy'⟩

lemma pairwise_lex_sort {t : List PlayerScore}
    (hid : t.Pairwise (fun a b => a.id < b.id)) :
    (sortByScoreDesc t).Pairwise scoreIdRel := by
  induction t with
  | nil => simp [sortByScoreDesc]
  | cons x xs ih =>
      rw [List.pairwise_cons] at hid
      obtain ⟨hx, hxs⟩ := hid
      simp only [sortByScoreDesc, List.foldr_cons] at ih ⊢
      refine pairwise_lex_insert ?_ (ih hxs)
      intro b hb
      exact hx b (mem_sortByScoreDesc.mp hb)

lemma mergeRow_cases (q r : PlayerScore) : mergeRow q r = q ∨ mergeRow q r = r := by
  unfold mergeRow
  split <;> simp

lemma mergeRow_score_ge (q r : PlayerScore) :
    q.score ≤ (mergeRow q r).score ∧ r.score ≤ (mergeRow q r).score := by
  unfold mergeRow
  split
  · exact ⟨le_refl _, le_of_lt (by assumption)⟩
  · exact ⟨not_lt.mp (by assumption), le_refl _⟩

lemma mergeRow_username (q r : PlayerScore) (h : q.username = r.username) :
    (mergeRow q r).username = r.username := by
  rcases mergeRow_cases q r with hm | hm <;> rw [hm]
  exact h

lemma mem_putMerge {acc : List PlayerScore} {r ps : PlayerScore}
    (h : ps ∈ putMerge acc r) : ps ∈ acc ∨ ps = r ∨ ∃ q ∈ acc, ps = mergeRow q r := by
  induction acc with
  | nil =>
      simp [putMerge] at h
      exact Or.inr (Or.inl h)
  | cons q rest ih =>
      by_cases hq : q.username = r.username
      · rw [putMerge, if_pos hq] at h
        rcases List.mem_cons.mp h with rfl | h'
        · exact Or.inr (Or.inr ⟨q, List.mem_cons_self q rest, rfl⟩)
        · exact Or.inl (List.mem_cons_of_mem q h')
      · rw [putMerge, if_neg hq] at h
        rcases List.mem_cons.mp h with rfl | h'
        · exact Or.inl (List.mem_cons_self ps rest)
        · rcases ih h' with h1 | h1 | ⟨q', hq', h1⟩
          · exact Or.inl (List.mem_cons_of_mem q h1)
          · exact Or.inr (Or.inl h1)
          · exact Or.inr (Or.inr ⟨q', List.mem_cons_of_mem q hq', h1⟩)

lemma mem_putMerge_strong {acc : List PlayerScore} {r ps : PlayerScore}
    (hd : acc.Pairwise (fun a b => a.username ≠ b.username))
    (h : ps ∈ putMerge acc r) :
    (ps ∈ acc ∧ ps.username ≠ r.username) ∨
    (∃ q ∈ acc, q.username = r.username ∧ ps = mergeRow q r) ∨
    (ps = r ∧ ∀ q ∈ acc, q.username ≠ r.username) := by
  induction acc with
  | nil =>
      simp [putMerge] at h
      exact Or.inr (Or.inr ⟨h, by simp⟩)
  | cons q rest ih =>
      rw [List.pairwise_cons] at hd
      obtain ⟨hqrest, hrest⟩ := hd
      by_cases hq : q.username = r.username
      · rw [putMerge, if_pos hq] at h
        rcases List.mem_cons.mp h with rfl | h'
        · exact Or.inr (Or.inl ⟨q, List.mem_cons_self q rest, hq, rfl⟩)
        · refine Or.inl ⟨List.mem_cons_of_mem q h', ?_⟩
          intro hps
          exact hqrest ps h' (by rw [hq, hps])
      · rw [putMerge, if_neg hq] at h
        rcases List.mem_cons.mp h with rfl | h'
        · exact Or.inl ⟨List.mem_cons_self ps rest, hq⟩
        · rcases ih hrest h' with ⟨h1, h2⟩ | ⟨q', hq', h1, h2⟩ | ⟨h1, h2⟩
          · exact Or.inl ⟨List.mem_cons_of_mem q h1, h2⟩
          · exact Or.inr (Or.inl ⟨q', List.mem_cons_of_mem q hq', h1, h2⟩)
          · refine Or.inr (Or.inr ⟨h1, ?_⟩)
            intro q'' hq''
            rcases List.mem_cons.mp hq'' with rfl | h''
            · exact hq
            · exact h2 q'' h''

lemma putMerge_pairwise {acc : List PlayerScore} {r : PlayerScore}
    (hd : acc.Pairwise (fun a b => a.username ≠ b.username)) :
    (putMerge acc r).Pairwise (fun a b => a.username ≠ b.username) := by
  induction acc with
  | nil => simp [putMerge]
  | cons q rest ih =>
      rw [List.pairwise_cons] at hd
      obtain ⟨hqrest, hrest⟩ := hd
      by_cases hq : q.username = r.username
      · rw [putMerge, if_pos hq, List.pairwise_cons]
        refine ⟨?_, hrest⟩
        intro b hb
        rw [mergeRow_username q r hq, ← hq]
        exact hqrest b hb
      · rw [putMerge, if_neg hq, List.pairwise_cons]
        refine ⟨?_, ih hrest⟩
        intro b hb
        rcases mem_putMerge hb with h1 | rfl | ⟨q', hq', h1⟩
        · exact hqrest b h1
        · exact hq
        · rcases mergeRow_cases q' r with hm | hm <;> rw [h1, hm]
          · exact hqrest q' hq'
          · exact hq

lemma putMerge_preserves_other {acc : List PlayerScore} {r ps : PlayerScore}
    (hps : ps ∈ acc) (hne : ps.username ≠ r.username) :
    ps ∈ putMerge acc r := by
  induction acc with
  | nil => cases hps
  | cons q rest ih =>
      by_cases hq : q.username = r.username
      · rw [putMerge, if_pos hq]
        rcases List.mem_cons.mp hps with rfl | h'
        · exact absurd hq hne
        · exact List.mem_cons_of_mem _ h'
      · rw [putMerge, if_neg hq]
        rcases List.mem_cons.mp hps with rfl | h'
        · exact List.mem_cons_self ps _
        · exact List.mem_cons_of_mem q (ih h')

lemma putMerge_merges_same {acc : List PlayerScore} {r q : PlayerScore}
    (hd : acc.Pairwise (fun a b => a.username ≠ b.username))
    (hq : q ∈ acc) (heq : q.username = r.username) :
    mergeRow q r ∈ putMerge acc r := by
  induction acc with
  | nil => cases hq
  | cons q₀ rest ih =>
      rw [List.pairwise_cons] at hd
      obtain ⟨hq0rest, hrest⟩ := hd
      by_cases hq0 : q₀.username = r.username
      · rw [putMerge, if_pos hq0]
        rcases List.mem_cons.mp hq with rfl | h'
        · exact List.mem_cons_self _ _
        · exact absurd (heq.trans hq0.symm).symm (hq0rest q h')
      · rw [putMerge, if_neg hq0]
        rcases List.mem_cons.mp hq with rfl | h'
        · exact absurd heq hq0
        · exact List.mem_cons_of_mem q₀ (ih hrest h')

lemma putMerge_covers {acc : List PlayerScore} (r : PlayerScore) :
    (∀ q ∈ acc, ∃ ps ∈ putMerge acc r, ps.username = q.username) ∧
    (∃ ps ∈ putMerge acc r, ps.username = r.username) := by
  induction acc with
  | nil =>
      refine ⟨by simp, r, by simp [putMerge]⟩
  | cons q₀ rest ih =>
      by_cases hq0 : q₀.username = r.username
      · rw [putMerge, if_pos hq0]
        constructor
        · intro q hq
          rcases List.mem_cons.mp hq with rfl | h'
          · exact ⟨mergeRow q r, List.mem_cons_self _ _,
              (mergeRow_username q r hq0).trans hq0.symm⟩
          · exact ⟨q, List.mem_cons_of_mem _ h', rfl⟩
        · exact ⟨mergeRow q₀ r, List.mem_cons_self _ _, mergeRow_username q₀ r hq0⟩
      · rw [putMerge, if_neg hq0]
        constructor
        · intro q hq
          rcases List.mem_cons.mp hq with rfl | h'
          · exact ⟨q, List.mem_cons_self _ _, rfl⟩
          · obtain ⟨ps, hps, hps'⟩ := ih.1 q h'
            exact ⟨ps, List.mem_cons_of_mem q₀ hps, hps'⟩
        · obtain ⟨ps, hps, hps'⟩ := ih.2
          exact ⟨ps, List.mem_cons_of_mem q₀ hps, hps'⟩

lemma dedupe_fold_inv :
    ∀ (rem acc processed : List PlayerScore),
      acc.Pairwise (fun a b => a.username ≠ b.username) →
      (∀ ps ∈ acc, ps ∈ processed ∧
        ∀ q ∈ processed, q.username = ps.username → q.score ≤ ps.score) →
      (∀ q ∈ processed, ∃ ps ∈ acc, ps.username = q.username) →
      (rem.foldl putMerge acc).Pairwise (fun a b => a.username ≠ b.username) ∧
      (∀ ps ∈ rem.foldl putMerge acc, ps ∈ processed ++ rem ∧
        ∀ q ∈ processed ++ rem, q.username = ps.username → q.score ≤ ps.score) ∧
      (∀ q ∈ processed ++ rem, ∃ ps ∈ rem.foldl putMerge acc,
        ps.username = q.username) := by
  intro rem
  induction rem with
  | nil =>
      intro acc processed hd hmax hcov
      simpa using ⟨hd, hmax, hcov⟩
  | cons r rem' ih =>
      intro acc processed hd hmax hcov
      have hd' := @putMerge_pairwise acc r hd
      have hmax' : ∀ ps ∈ putMerge acc r, ps ∈ (processed ++ [r]) ∧
          ∀ q ∈ processed ++ [r], q.username = ps.username →
            q.score ≤ ps.score := by
        intro ps hps
        rcases mem_putMerge_strong hd hps with ⟨h1, h2⟩ |
          ⟨q₀, hq₀, hq₀u, rfl⟩ | ⟨rfl, h2⟩
        · obtain ⟨hmem, hdom⟩ := hmax ps h1
          refine ⟨List.mem_append_left _ hmem, ?_⟩
          intro q hq hqu
          rcases List.mem_append.mp hq with hq' | hq'
          · exact hdom q hq' hqu
          · rw [List.mem_singleton.mp hq'] at hqu
            exact absurd hqu.symm h2
        · obtain ⟨hmem, hdom⟩ := hmax q₀ hq₀
          have husr : (mergeRow q₀ r).username = r.username :=
            mergeRow_username q₀ r hq₀u
          refine ⟨?_, ?_⟩
          · rcases mergeRow_cases q₀ r with hm | hm <;> rw [hm]
            · exact List.mem_append_left _ hmem
            · exact List.mem_append_right _ (List.mem_singleton_self r)
          · intro q hq hqu
            rw [husr] at hqu
            rcases List.mem_append.mp hq with hq' | hq'
            · exact le_trans (hdom q hq' (hqu.trans hq₀u.symm))
                (mergeRow_score_ge q₀ r).1
            · rw [List.mem_singleton.mp hq']
              exact (mergeRow_score_ge q₀ r).2
        · refine ⟨List.mem_append_right _ (List.mem_singleton_self ps), ?_⟩
          intro q hq hqu
          rcases List.mem_append.mp hq with hq' | hq'
          · obtain ⟨e, he, heu⟩ := hcov q hq'
            exact absurd (heu.trans hqu) (h2 e he)
          · rw [List.mem_singleton.mp hq']
      have hcov' : ∀ q ∈ processed ++ [r],
          ∃ ps ∈ putMerge acc r, ps.username = q.username := by
        intro q hq
        rcases List.mem_append.mp hq with hq' | hq'
        · obtain ⟨e, he, heu⟩ := hcov q hq'
          obtain ⟨ps, hps, hpsu⟩ := (@putMerge_covers acc r).1 e he
          exact ⟨ps, hps, hpsu.trans heu⟩
        · rw [List.mem_singleton.mp hq']
          exact (@putMerge_covers acc r).2
      have := ih (putMerge acc r) (processed ++ [r]) hd' hmax' hcov'
      simpa [List.foldl_cons, List.append_assoc] using this

lemma dedupeByUser_spec (t : List PlayerScore) :
    (dedupeByUser t).Pairwise (fun a b => a.username ≠ b.username) ∧
    (∀ ps ∈ dedupeByUser t, ps ∈ t ∧
      ∀ q ∈ t, q.username = ps.username → q.score ≤ ps.score) ∧
    (∀ q ∈ t, ∃ ps ∈ dedupeByUser t, ps.username = q.username) := by
  have h := dedupe_fold_inv t [] [] (by simp) (by simp) (by simp)
  simpa [dedupeByUser] using h

lemma perm_insertByScoreDesc (a : PlayerScore) (l : List PlayerScore) :
    List.Perm (insertByScoreDesc a l) (a :: l) := by
  induction l with
  | nil => simp [insertByScoreDesc]
  | cons b bs ih =>
      by_cases h : b.score > a.score
      · rw [insertByScoreDesc, if_pos h]
        exact (ih.cons b).trans (List.Perm.swap a b bs)
      · rw [insertByScoreDesc, if_neg h]

lemma perm_sortByScoreDesc (l : List PlayerScore) :
    List.Perm (sortByScoreDesc l) l := by
  induction l with
  | nil => simp [sortByScoreDesc]
  | cons x xs ih =>
      simp only [sortByScoreDesc, List.foldr_cons] at ih ⊢
      exact (perm_insertByScoreDesc x _).trans (ih.cons x)

/-- Counterexample to C9: Two `slots` rows with equal best payout 100, the
first stored row with the older timestamp 10, the second with the newer
timestamp 20: the top-2 leaderboard returns them in table order — the
older-timestamp row first — not most-recent-timestamp first as the claim
states (the `findTopNByGame` query orders by score alone). -/
theorem getTopPlayers_tie_counterexample :
    getTopPlayers
      [⟨1, "gail", "player", "slots", 100, 10, none⟩,
       ⟨2, "hank", "player", "slots", 100, 20, none⟩] "slots" 2 =
      [⟨1, "gail", "player", "slots", 100, 10, none⟩,
       ⟨2, "hank", "player", "slots", 100, 20, none⟩] ∧
    (getTopPlayers
      [⟨1, "gail", "player", "slots", 100, 10, none⟩,
       ⟨2, "hank", "player", "slots", 100, 20, none⟩] "slots" 2).map
        PlayerScore.score = [100, 100] ∧
    (getTopPlayers
      [⟨1, "gail", "player", "slots", 100, 10, none⟩,
       ⟨2, "hank", "player", "slots", 100, 20, none⟩] "slots" 2).map
        PlayerScore.timestamp = [10, 20] ∧
    (10 : Nat) < 20 := by
  refine ⟨?_, ?_, ?_, by norm_num⟩ <;> rfl

/-- Claim C9 as amended: The per-game top-N leaderboard returns `PlayerScore`
rows of the game sorted by best payout descending, truncated to N, with
ties left in stored-table (id/insertion) order — the query has no timestamp
tie-break; the cross-game `"all"` leaderboard first reduces to one best row
per player (a stored row of maximal best payout among that player's
per-game rows) and then sorts descending and truncates to N. -/
theorem getTopPlayers_spec :
    (∀ t g n, g ≠ "all" →
      (getTopPlayers t g n).Pairwise (fun a b => b.score ≤ a.score)) ∧
    (∀ t g n, g ≠ "all" → (getTopPlayers t g n).length ≤ n) ∧
    (∀ t g n ps, g ≠ "all" → ps ∈ getTopPlayers t g n →
      ps ∈ t ∧ ps.game = g) ∧
    (∀ t g n, g ≠ "all" → t.Pairwise (fun a b => a.id < b.id) →
      (getTopPlayers t g n).Pairwise scoreIdRel) ∧
    (∀ t n, (getTopPlayers t "all" n).Pairwise
      (fun a b => b.score ≤ a.score)) ∧
    (∀ t n, (getTopPlayers t "all" n).length ≤ n) ∧
    (∀ t n, (getTopPlayers t "all" n).Pairwise
      (fun a b => a.username ≠ b.username)) ∧
    (∀ t n ps, ps ∈ getTopPlayers t "all" n → ps ∈ t ∧
      ∀ q ∈ t, q.username = ps.username → q.score ≤ ps.score) := by
  refine ⟨?_, ?_, ?_, ?_, ?_, ?_, ?_, ?_⟩
  · intro t g n hg
    rw [getTopPlayers, if_neg hg, findTopNByGame]
    exact (pairwise_sortByScoreDesc _).sublist (List.take_sublist _ _)
  · intro t g n hg
    rw [getTopPlayers, if_neg hg, findTopNByGame]
    exact List.length_take_le _ _
  · intro t g n ps hg hps
    rw [getTopPlayers, if_neg hg, findTopNByGame] at hps
    have h1 := mem_sortByScoreDesc.mp (List.mem_of_mem_take hps)
    obtain ⟨hmem, hgame⟩ := List.mem_filter.mp h1
    exact ⟨hmem, of_decide_eq_true hgame⟩
  · intro t g n hg hid
    rw [getTopPlayers, if_neg hg, findTopNByGame]
    refine List.Pairwise.sublist (List.take_sublist _ _) ?_
    exact pairwise_lex_sort (hid.filter _)
  · intro t n
    rw [getTopPlayers, if_pos rfl]
    exact (pairwise_sortByScoreDesc _).sublist (List.take_sublist _ _)
  · intro t n
    rw [getTopPlayers, if_pos rfl]
    exact List.length_take_le _ _
  · intro t n
    rw [getTopPlayers, if_pos rfl]
    refine List.Pairwise.sublist (List.take_sublist _ _) ?_
    exact ((perm_sortByScoreDesc (dedupeByUser t)).pairwise_iff
      (fun h he => h he.symm)).mpr (dedupeByUser_spec t).1
  · intro t n ps hps
    rw [getTopPlayers, if_pos rfl] at hps
    have h1 := mem_sortByScoreDesc.mp (List.mem_of_mem_take hps)
    exact (dedupeByUser_spec t).2.1 ps h1

/-- Witness for `getTopPlayers_spec`: a concrete two-row id-ordered table;
the "slots" top-2 list is lexicographically ordered (score descending, ids
ascending on ties) and the "all" top-2 list has pairwise-distinct
usernames. -/
theorem getTopPlayers_spec_witness :
    ("slots" : String) ≠ "all" ∧
    ([⟨1, "gail", "player", "slots", 100, 10, none⟩,
      ⟨2, "hank", "player", "slots", 60, 20, none⟩] :
        List PlayerScore).Pairwise (fun a b => a.id < b.id) ∧
    (getTopPlayers
      [⟨1, "gail", "player", "slots", 100, 10, none⟩,
       ⟨2, "hank", "player", "slots", 60, 20, none⟩] "slots" 2).Pairwise
        scoreIdRel ∧
    (getTopPlayers
      [⟨1, "gail", "player", "slots", 100, 10, none⟩,
       ⟨2, "hank", "player", "slots", 60, 20, none⟩] "all" 2).Pairwise
        (fun a b => a.username ≠ b.username) := by
  refine ⟨by decide, ?_, ?_, ?_⟩
  · simp [List.pairwise_cons]
  · exact getTopPlayers_spec.2.2.2.1
      [⟨1, "gail", "player", "slots", 100, 10, none⟩,
       ⟨2, "hank", "player", "slots", 60, 20, none⟩] "slots" 2
      (by decide) (by simp [List.pairwise_cons])
  · exact getTopPlayers_spec.2.2.2.2.2.2.1
      [⟨1, "gail", "player", "slots", 100, 10, none⟩,
       ⟨2, "hank", "player", "slots", 60, 20, none⟩] 2

end Vegas
